import Mathlib

/-!
Shallow embedding of the ml-api-service repository (a governed
document-retrieval-and-routing service) and proofs about its claims.

Conventions of the embedding:
* Python floats are modelled as exact rationals (`ℚ`); the arithmetic in the
  ranking engine is carried out exactly.
* Python dictionaries with a known field set are modelled as structures with
  `Option` fields (a missing key is `none`).
* Python exceptions are modelled with the inductive type `PyErr`, whose
  constructors record the concrete exception classes raised by the code,
  including the two distinct `PermissionDenied` classes defined in
  `security/guard.py` and `app/errors.py`.
* The external embedding model (`nlp/embedder.py` wraps a sentence
  transformer) and the external NLP normalisation (`nlp/preprocess.py` wraps
  nltk) are opaque parameters `encode : String → Vec` and
  `cleanText : String → String`.
* Fallible operations return `Except PyErr _`; the store-mutating operations
  return the new store on success, and the caller keeps the old store when an
  exception propagates (Python object state is unchanged on those paths
  because every raise happens before the mutation).
* Python `list.sort(key=..., reverse=True)` is a stable descending sort; it
  is modelled by `List.mergeSort` with the reversed key comparison, which has
  exactly those semantics.
-/

namespace MLAPI

set_option maxRecDepth 40000

/-! ### Errors (app/errors.py, security/guard.py, and library errors) -/

/-- Exception classes that the modelled code can raise.  `typeError`,
`valueError`, `assertionError`, `faissError` and `keyError` are library/runtime
errors; `guardPermissionDenied` is `security.guard.PermissionDenied` (a direct
subclass of `Exception`); `appPermissionDenied`, `noRouteMatched` and
`emptySearchResults` are the `app.errors.DocuFlowError` subclasses. -/
inductive PyErr where
  | typeError (msg : String)
  | valueError (msg : String)
  | assertionError (msg : String)
  | faissError (msg : String)
  | keyError (msg : String)
  | guardPermissionDenied (msg : String)
  | appPermissionDenied (msg : String)
  | noRouteMatched (msg : String)
  | emptySearchResults (msg : String)
deriving DecidableEq, Repr

/-- Message carried by an exception, as `str(e)` would render it. -/
def PyErr.msg : PyErr → String
  | .typeError m => m
  | .valueError m => m
  | .assertionError m => m
  | .faissError m => m
  | .keyError m => m
  | .guardPermissionDenied m => m
  | .appPermissionDenied m => m
  | .noRouteMatched m => m
  | .emptySearchResults m => m

/-- Python `isinstance(e, app.errors.DocuFlowError)`: true exactly for the
three exception classes declared in `app/errors.py`.  The guard module's own
`PermissionDenied` is not a `DocuFlowError`. -/
def PyErr.isDocuFlowError : PyErr → Bool
  | .appPermissionDenied _ => true
  | .noRouteMatched _ => true
  | .emptySearchResults _ => true
  | _ => false

/-- Python `isinstance(e, app.errors.PermissionDenied)`: the class that
`app/main.py` imports and catches.  Note that it is not the class the guard
raises. -/
def PyErr.isAppPermissionDenied : PyErr → Bool
  | .appPermissionDenied _ => true
  | _ => false

/-! ### Roles and capabilities (security/roles.py, security/guard.py) -/

/-- System roles from `security/roles.py`. -/
inductive Role where
  | viewer
  | operator
  | manager
  | admin
deriving DecidableEq, Repr

/-- Atomic capabilities from `security/roles.py`. -/
inductive Capability where
  | viewSearchResults
  | executeWorkflow
  | overrideRoute
  | viewAuditLogs
  | manageRules
deriving DecidableEq, Repr

/-- The value of each role, as serialised into audit payloads. -/
def Role.str : Role → String
  | .viewer => "viewer"
  | .operator => "operator"
  | .manager => "manager"
  | .admin => "admin"

/-- the ROLE_CAPABILITIES mapping of `security/roles.py`. -/
def ROLE_CAPABILITIES : Role → List Capability
  | .viewer => [.viewSearchResults]
  | .operator => [.viewSearchResults, .executeWorkflow]
  | .manager => [.viewSearchResults, .executeWorkflow, .overrideRoute, .viewAuditLogs]
  | .admin => [.viewSearchResults, .executeWorkflow, .overrideRoute, .viewAuditLogs, .manageRules]

/-- `role_has_capability` of `security/roles.py`. -/
def role_has_capability (role : Role) (capability : Capability) : Bool :=
  (ROLE_CAPABILITIES role).contains capability

/-- Message raised by the guard (the source interpolates the role and the
capability into this message; the exact rendering is immaterial here). -/
def GUARD_DENY_MSG : String := "Role is not allowed to perform capability"

/-- `enforce_permission` of `security/guard.py`: returns `none` when allowed,
and the raised exception otherwise.  The raised class is the guard module's
own `PermissionDenied`, not the one in `app/errors.py`. -/
def enforce_permission (role : Role) (capability : Capability) : Option PyErr :=
  if role_has_capability role capability then none
  else some (.guardPermissionDenied GUARD_DENY_MSG)

/-! ### Lowercasing and substring containment (Python `str.lower`, `in`) -/

/-- Characters of a string, lowercased, as Python `text.lower()` produces for
the ASCII fragment relevant here. -/
def lowerChars (s : String) : List Char := s.data.map Char.toLower

/-- Bool-valued list-of-chars prefix test. -/
def isPrefixB : List Char → List Char → Bool
  | [], _ => true
  | _ :: _, [] => false
  | a :: as, b :: bs => a == b && isPrefixB as bs

/-- Bool-valued contiguous-substring test: Python `needle in hay` on strings. -/
def containsSub (needle : List Char) : List Char → Bool
  | [] => needle.isEmpty
  | c :: rest => isPrefixB needle (c :: rest) || containsSub needle rest

/-- Python substring test on `String`s. -/
def containsSubStr (needle hay : String) : Bool := containsSub needle.data hay.data

/-! ### Workflow router (workflow/router.py) -/

/-- Route payload: a string-valued dict (the `route:` mapping in rules.yaml,
consumed by the executor through `decision.get("action", "log")`). -/
abbrev RouteDict := List (String × String)

/-- One entry of the `routes:` list in rules.yaml, as `route` reads it: an
optional `classification` condition, an optional `keyword_contains` condition
and the `route` payload (defaulting to the empty dict). -/
structure Rule where
  whenClassification : Option String := none
  whenKeywords : Option (List String) := none
  route : RouteDict := []
deriving DecidableEq, Repr

/-- The loaded rules.yaml contents held by `WorkflowRouter`. -/
structure Rules where
  routes : List Rule := []
  defaultRoute : RouteDict := []
deriving DecidableEq, Repr

/-- One iteration of the matching loop in `WorkflowRouter.route`: the rule
survives both `continue` checks. -/
def ruleMatches (classification : String) (textLower : List Char) (rule : Rule) : Bool :=
  (match rule.whenClassification with
   | some c => classification == c
   | none => true)
  &&
  (match rule.whenKeywords with
   | some ks => ks.any (fun k => containsSub (lowerChars k) textLower)
   | none => true)

/-- `WorkflowRouter.route` of `workflow/router.py`: first fully matching rule
wins, otherwise the default route. -/
def WorkflowRouter.route (rules : Rules) (classification : String) (text : String) : RouteDict :=
  match rules.routes.find? (ruleMatches classification (lowerChars text)) with
  | some rule => rule.route
  | none => rules.defaultRoute

/-! ### Keyword scoring (hybrid_search.py, `keyword_score`) -/

/-- Word characters of the Python regex `\w` over the ASCII fragment:
alphanumeric characters and the underscore. -/
def isWordChar (c : Char) : Bool := c.isAlphanum || c == '_'

/-- Helper splitting a character list into maximal word-character runs, the
accumulator holding the current run reversed. -/
def tokenRuns : List Char → List Char → List (List Char)
  | [], cur => if cur.isEmpty then [] else [cur.reverse]
  | c :: rest, cur =>
    if isWordChar c then tokenRuns rest (c :: cur)
    else if cur.isEmpty then tokenRuns rest []
    else cur.reverse :: tokenRuns rest []

/-- Python `re.findall(r"\w+", s.lower())`: the maximal word-character runs of
the lowercased string, in order. -/
def findallWordTokens (s : String) : List (List Char) :=
  tokenRuns (lowerChars s) []

/-- `keyword_score` of hybrid_search.py: distinct-token overlap ratio, `0.0`
when the query has no tokens (Python `set` is modelled by `List.toFinset`). -/
def keyword_score (query : String) (text : String) : ℚ :=
  let queryTokens := (findallWordTokens query).toFinset
  let textTokens := (findallWordTokens text).toFinset
  if queryTokens.card = 0 then 0
  else ((queryTokens ∩ textTokens).card : ℚ) / (queryTokens.card : ℚ)

/-! ### Metadata records and hits (vector_db/faiss_store.py, hybrid_search.py) -/

/-- Metadata dict stored in the ledger.  Every field is optional: a missing
key is `none`. -/
structure MetaRec where
  text : Option String := none
  sourceFile : Option String := none
  chunkId : Option Nat := none
  createdAt : Option String := none
  vectorId : Option Nat := none
deriving DecidableEq, Repr

/-- A search result: a copy of a ledger record with the `score` key set to the
raw index distance (`FAISSStore.search`). -/
structure SearchHit where
  meta : MetaRec
  score : ℚ
deriving DecidableEq, Repr

/-- A reranked hit: the search hit enriched with `keyword_score` and
`combined_score` (`rerank` in hybrid_search.py). -/
structure RankedHit where
  meta : MetaRec
  score : ℚ
  kwScore : ℚ
  combined : ℚ
deriving DecidableEq, Repr

/-- The per-item enrichment performed by the loop body of `rerank`:
`text = item.get("text", "")`, keyword score, distance-to-similarity
transform `1 / (1 + score)` and the fixed `0.3 / 0.7` fusion. -/
def enrich (query : String) (item : SearchHit) : RankedHit :=
  let text := item.meta.text.getD ""
  let kScore := keyword_score query text
  let semanticSim := 1 / (1 + item.score)
  { meta := item.meta, score := item.score, kwScore := kScore,
    combined := 3/10 * kScore + 7/10 * semanticSim }

/-- Python `list.sort(key=..., reverse=True)`: a stable sort placing larger
keys first.  `List.mergeSort` with the reversed comparison has exactly these
semantics (ties keep their original relative order).  Implemented as a
stable descending insertion sort so that it also reduces definitionally: the
element goes in front of the first entry whose key is not larger, so it lands
after every strictly larger key and before every equal key met later.  A
stable descending sort is unique, so this computes exactly what the source's
sort calls produce. -/
def insertDesc {α : Type} (key : α → ℚ) (x : α) : List α → List α
  | [] => [x]
  | y :: ys => if key y ≤ key x then x :: y :: ys else y :: insertDesc key x ys

/-- See `insertDesc`: the stable descending sort modelling Python
`list.sort(key=..., reverse=True)`. -/
def pySortDesc {α : Type} (key : α → ℚ) : List α → List α
  | [] => []
  | x :: xs => insertDesc key x (pySortDesc key xs)

/-- Ascending sort by key (the index returns ascending-distance results):
descending on the negated key. -/
def pySortAsc {α : Type} (key : α → ℚ) (l : List α) : List α :=
  pySortDesc (fun a => -(key a)) l

/-- `rerank` of hybrid_search.py: enrich every hit, then stable descending
sort on `combined_score`. -/
def rerank (query : String) (semanticResults : List SearchHit) : List RankedHit :=
  pySortDesc (fun r => r.combined) (semanticResults.map (enrich query))

/-! ### Document grouping (hybrid_search.py, `hybrid_search`) -/

/-- Group key of a hit: `item.get("source_file", "unknown")`. -/
def hitKey (item : RankedHit) : String := item.meta.sourceFile.getD "unknown"

/-- One value of the `grouped` dict in `hybrid_search`: the group key, the
running `best_score` and the hits collected for that key in encounter
order. -/
structure DocGroup where
  source : String
  best : ℚ
  chunks : List RankedHit
deriving DecidableEq, Repr

/-- Inserting one reranked hit into the `grouped` dict (Python dicts preserve
insertion order, so the dict is an association list): `setdefault` plus
append plus `best_score` update. -/
def groupInsert (item : RankedHit) : List DocGroup → List DocGroup
  | [] => [{ source := hitKey item, best := item.combined, chunks := [item] }]
  | g :: gs =>
    if g.source = hitKey item then
      { g with best := max g.best item.combined, chunks := g.chunks ++ [item] } :: gs
    else
      g :: groupInsert item gs

/-- The grouping loop of `hybrid_search` over the reranked hits. -/
def buildGroups (items : List RankedHit) : List DocGroup :=
  items.foldl (fun gs item => groupInsert item gs) []

/-- The per-document cap: chunks sorted descending by `combined_score`, then
truncated to `max_chunks_per_doc`. -/
def capGroup (maxPerDoc : Nat) (g : DocGroup) : DocGroup :=
  { g with chunks := (pySortDesc (fun c => c.combined) g.chunks).take maxPerDoc }

/-- The document grouping step of `hybrid_search`: group by source, cap each
group, order groups descending by `best_score`. -/
def groupAndCap (items : List RankedHit) (maxPerDoc : Nat) : List DocGroup :=
  pySortDesc (fun g => g.best) ((buildGroups items).map (capGroup maxPerDoc))

/-- One element of the cleaned `hybrid_search` response. -/
structure DocResult where
  sourceFile : String
  score : ℚ
  chunks : List String
deriving DecidableEq, Repr

/-! ### Vector store (vector_db/faiss_store.py) -/

/-- Embedding vectors, exact-rational model of the float arrays. -/
abbrev Vec := List ℚ

/-- `EMBEDDING_DIM` of faiss_store.py. -/
def EMBEDDING_DIM : Nat := 384

/-- The store state: the flat L2 index (`dim` fixed at construction, vectors
in insertion order) and the metadata ledger. -/
structure FAISSStore where
  dim : Nat
  index : List Vec
  metadata : List MetaRec
deriving DecidableEq, Repr

/-- A freshly created store (`FAISSStore.__init__` with no artifacts on
disk): an empty `IndexFlatL2(EMBEDDING_DIM)` and an empty ledger. -/
def emptyStore : FAISSStore := { dim := EMBEDDING_DIM, index := [], metadata := [] }

/-- `get_embedding` of nlp/embedder.py applied to the extracted text.  A
missing text (`None`) hits the debug `text[:50]` slice first and raises
`TypeError`; an empty string returns the empty list before the model is
consulted; otherwise the opaque sentence-transformer `encode` is applied.
`FAISSStore._embed_text` only reshapes, so it is the identity here. -/
def getEmbedding (encode : String → Vec) : Option String → Except PyErr Vec
  | none => .error (.typeError "NoneType object is not subscriptable")
  | some s => if s = "" then .ok [] else .ok (encode s)

/-- `faiss.IndexFlatL2.add` for a single vector: the Python wrapper asserts
the shape against the index dimension, then appends. -/
def faissAdd (s : FAISSStore) (v : Vec) : Except PyErr FAISSStore :=
  if v.length = s.dim then .ok { s with index := s.index ++ [v] }
  else .error (.assertionError "assert d == self.d")

/-- `faiss.IndexFlatL2.add` for a batch: all rows must match the index
dimension (a ragged or mismatched array fails before anything is added). -/
def faissAddBatch (s : FAISSStore) (vs : List Vec) : Except PyErr FAISSStore :=
  if vs.all (fun v => v.length == s.dim) then .ok { s with index := s.index ++ vs }
  else .error (.assertionError "assert d == self.d")

/-- Placeholder for `datetime.utcnow().isoformat()`: the clock is external
and no claim inspects the timestamp value. -/
def CREATED_AT_PLACEHOLDER : String := "1970-01-01T00:00:00"

/-- Argument of `FAISSStore.add_document`: a str, a dict, or anything else
(which raises `ValueError`). -/
inductive AddInput where
  | str (text : String)
  | dict (meta : MetaRec)
  | invalid
deriving DecidableEq, Repr

/-- `FAISSStore.add_document`: extract the text (a plain string is wrapped as
a one-field dict), embed it, append the vector to the index, then append the
metadata record after `setdefault`-ing `created_at` and `vector_id` (the
default id is the ledger length before the append).  Every raise happens
before the ledger append, so an error leaves the store unchanged.  The
argument inspection at the top of the method is split out as
`extractInput`. -/
def extractInput : AddInput → Except PyErr (Option String × MetaRec)
  | .str t => .ok (some t, { text := some t })
  | .dict m => .ok (m.text, m)
  | .invalid => .error (.valueError "add_document expects str or dict")

/-- See `extractInput`: the body of `FAISSStore.add_document`. -/
def add_document (encode : String → Vec) (s : FAISSStore) (input : AddInput) :
    Except PyErr FAISSStore :=
  match extractInput input with
  | .error e => .error e
  | .ok (textOpt, meta) =>
    match getEmbedding encode textOpt with
    | .error e => .error e
    | .ok embedding =>
      match faissAdd s embedding with
      | .error e => .error e
      | .ok s1 =>
        .ok { s1 with metadata := s1.metadata ++
          [{ meta with
             createdAt := some (meta.createdAt.getD CREATED_AT_PLACEHOLDER),
             vectorId := some (meta.vectorId.getD s.metadata.length) }] }

/-- `FAISSStore.add_embeddings`: length-mismatch check, batch index add, then
the ledger appends with `vector_id` defaulting to `start_id + i`. -/
def add_embeddings (s : FAISSStore) (embeddings : List Vec) (metadatas : List MetaRec) :
    Except PyErr FAISSStore :=
  if embeddings.length ≠ metadatas.length then
    Except.error (.valueError "Embeddings and metadata length mismatch")
  else
    match faissAddBatch s embeddings with
    | .error e => .error e
    | .ok s1 =>
      let startId := s.metadata.length
      let newMetas := metadatas.enum.map (fun p =>
        { p.2 with
          createdAt := some (p.2.createdAt.getD CREATED_AT_PLACEHOLDER),
          vectorId := some (p.2.vectorId.getD (startId + p.1)) })
      .ok { s1 with metadata := s1.metadata ++ newMetas }

/-- Squared L2 distance, as `IndexFlatL2` reports it. -/
def sqDist (q v : Vec) : ℚ := ((q.zip v).map (fun p => (p.1 - p.2) * (p.1 - p.2))).sum

/-- Padding distance used by the index when fewer than `k` vectors exist
(`HUGE_VALF` in the library); callers never observe it because the padded
label is `-1`. -/
def FAISS_PAD_DIST : ℚ := 10 ^ 38

/-- `faiss.IndexFlatL2.search` on one query row: the wrapper asserts the
query dimension, the library requires `k > 0`, and the result is the `k`
ascending-distance labelled pairs, padded with label `-1` when the index
holds fewer than `k` vectors. -/
def faissSearch (s : FAISSStore) (q : Vec) (k : Int) : Except PyErr (List (Int × ℚ)) :=
  if q.length ≠ s.dim then .error (.assertionError "assert d == self.d")
  else if k ≤ 0 then .error (.faissError "k must be positive")
  else
    let pairs := s.index.enum.map (fun p => ((p.1 : Int), sqDist q p.2))
    let sorted := pySortAsc (fun p => p.2) pairs
    let top := sorted.take k.toNat
    .ok (top ++ List.replicate (k.toNat - top.length) ((-1 : Int), FAISS_PAD_DIST))

/-- The result loop of `FAISSStore.search`: every in-range label is turned
into a copy of the ledger record with the `score` key set; out-of-range
labels (in particular the `-1` padding) are silently dropped.  The empty
store short-circuits to `[]` before this loop runs. -/
def hitsOfLabels (md : List MetaRec) (pairs : List (Int × ℚ)) : List SearchHit :=
  pairs.filterMap (fun p =>
    if h : 0 ≤ p.1 ∧ p.1.toNat < md.length then
      some { meta := md.get ⟨p.1.toNat, h.2⟩, score := p.2 }
    else none)

/-- See `hitsOfLabels`: the body of `FAISSStore.search`. -/
def FAISSStore.search (s : FAISSStore) (q : Vec) (k : Int) : Except PyErr (List SearchHit) :=
  if s.index.length = 0 then .ok []
  else
    match faissSearch s q k with
    | .error e => .error e
    | .ok pairs => .ok (hitsOfLabels s.metadata pairs)

/-- `hybrid_search` of hybrid_search.py: embed the query, retrieve from the
store, short-circuit on no hits, rerank, group and cap, then project the
cleaned response (`c["text"]` raises `KeyError` on a ledger record without
text). -/
def hybrid_search (encode : String → Vec) (store : FAISSStore) (query : String)
    (topK : Int) (maxChunksPerDoc : Nat) : Except PyErr (List DocResult) := do
  let qEmb ← getEmbedding encode (some query)
  let raw ← store.search qEmb topK
  if raw.isEmpty then Except.ok []
  else
    let ordered := groupAndCap (rerank query raw) maxChunksPerDoc
    ordered.mapM (fun g => do
      let texts ← g.chunks.mapM (fun c => match c.meta.text with
        | some t => Except.ok t
        | none => Except.error (.keyError "text"))
      Except.ok { sourceFile := g.source, score := g.best, chunks := texts })

/-! ### Audit records (audit/logger.py) and event names -/

/-- JSON-like values appearing in audit payloads. -/
inductive JVal where
  | s (v : String)
  | q (v : ℚ)
  | i (v : Int)
  | dict (fields : List (String × JVal))
  | arr (vs : List JVal)

/-- One appended line of the audit log: `AuditLogger.log` writes
`{event, timestamp, payload}`; the timestamp is the external clock and is
omitted from the model. -/
structure AuditRec where
  event : String
  payload : List (String × JVal)

/-- Modelled from the spec: the module `audit.events`, imported by
`app/main.py` for the constants `ROUTE_DECISION`, `ROUTE_EXECUTED`,
`ROUTE_DENIED` and `ROUTE_FAILED`, is not present under src/.  The spec fixes
the event kind of a denial as "denied" and of a non-denial failure as
"failed"; the two success-path kinds are only described as the decision-time
and execution-time events, named here accordingly. -/
def ROUTE_DECISION : String := "route_decision"

/-- Modelled from the spec: execution-time event kind of `audit.events`, see
`ROUTE_DECISION`. -/
def ROUTE_EXECUTED : String := "route_executed"

/-- Modelled from the spec: denial event kind of `audit.events`, fixed by the
spec as "denied". -/
def ROUTE_DENIED : String := "denied"

/-- Modelled from the spec: failure event kind of `audit.events`, fixed by
the spec as "failed". -/
def ROUTE_FAILED : String := "failed"

/-- Event kind written by `WorkflowExecutor.execute` (workflow/executor.py,
present in src/). -/
def WORKFLOW_EXECUTION : String := "workflow_execution"

/-! ### Executor (workflow/executor.py) -/

/-- The result dict built by `WorkflowExecutor.execute`. -/
structure ExecResult where
  action : String
  status : String
  message : String
deriving DecidableEq, Repr

/-- Lookup in a string-valued dict (`dict.get`). -/
def lookupDict (d : RouteDict) (key : String) : Option String :=
  (d.find? (fun p => p.1 == key)).map (fun p => p.2)

/-- Route payload rendered into an audit payload value. -/
def JVal.ofRouteDict (d : RouteDict) : JVal :=
  .dict (d.map (fun p => (p.1, JVal.s p.2)))

/-- Execution result rendered into an audit payload value. -/
def JVal.ofExecResult (r : ExecResult) : JVal :=
  .dict [("action", .s r.action), ("status", .s r.status), ("message", .s r.message)]

/-- `WorkflowExecutor.execute`: recognised actions produce a completed canned
result, anything else degrades to `status = "ignored"`; every call emits
exactly one `workflow_execution` audit record with decision, context and
result. -/
def WorkflowExecutor.execute (decision : RouteDict) (context : List (String × JVal)) :
    ExecResult × AuditRec :=
  let action := (lookupDict decision "action").getD "log"
  let result : ExecResult :=
    if action == "queue" then
      { action := action, status := "completed", message := "Item queued for processing" }
    else if action == "tag" then
      { action := action, status := "completed", message := "Metadata tag applied" }
    else if action == "log" then
      { action := action, status := "completed", message := "Logged only (no side effects)" }
    else if action == "webhook" then
      { action := action, status := "completed", message := "Webhook execution placeholder" }
    else
      { action := action, status := "ignored", message := "Unknown action: " ++ action }
  (result,
    { event := WORKFLOW_EXECUTION,
      payload := [("decision", .ofRouteDict decision), ("context", .dict context),
                  ("result", .ofExecResult result)] })

/-! ### Orchestrator (app/main.py, `route_from_search` and `classify_text`) -/

/-- `classify_text` of app/main.py: substring checks on the normalised text;
`clean_text` (nlp/preprocess.py) wraps nltk and is an opaque parameter. -/
def classify_text (cleanText : String → String) (text : String) : String × ℚ :=
  let cleaned := cleanText text
  if containsSubStr "urgent" cleaned then ("urgent", 92/100)
  else if containsSubStr "payment" cleaned then ("payment_request", 87/100)
  else ("general", 55/100)

/-- Process-start state that `app/main.py` builds at import time and that the
governed endpoint reads: the embedding model, the nltk normaliser, the FAISS
store and the loaded rules.yaml. -/
structure RouteEnv where
  encode : String → Vec
  cleanText : String → String
  store : FAISSStore
  rules : Rules

/-- The successful JSON response of `route_from_search`. -/
structure RouteResponse where
  role : Role
  query : String
  classification : String
  decision : RouteDict
  execution : ExecResult
  searchResults : List DocResult
deriving DecidableEq, Repr

/-- The `ROUTE_DENIED` audit record written by the
`except PermissionDenied` handler of `route_from_search`. -/
def deniedRec (role : Role) (query : String) (e : PyErr) : AuditRec :=
  { event := ROUTE_DENIED,
    payload := [("role", .s role.str), ("query", .s query), ("reason", .s e.msg)] }

/-- The `ROUTE_FAILED` audit record written by the `except DocuFlowError`
handler of `route_from_search`. -/
def failedRec (role : Role) (query : String) (e : PyErr) : AuditRec :=
  { event := ROUTE_FAILED,
    payload := [("role", .s role.str), ("query", .s query), ("error", .s e.msg)] }

/-- The exception handlers at the end of `route_from_search`, applied to an
exception escaping the try block with the audit records written so far:
`except PermissionDenied` catches only the class from app/errors.py,
`except DocuFlowError` catches its other subclasses, and any other exception
(in particular the guard module's own `PermissionDenied`) escapes with no
audit record added. -/
def handleRouteErr (role : Role) (query : String) (trail : List AuditRec) (e : PyErr) :
    List AuditRec × Except PyErr RouteResponse :=
  if e.isAppPermissionDenied then (trail ++ [deniedRec role query e], .error e)
  else if e.isDocuFlowError then (trail ++ [failedRec role query e], .error e)
  else (trail, .error e)

/-- The `ROUTE_DECISION` audit record of the success path. -/
def decisionRec (role : Role) (query classification : String) (decision : RouteDict) : AuditRec :=
  { event := ROUTE_DECISION,
    payload := [("role", .s role.str), ("query", .s query),
                ("classification", .s classification),
                ("decision", .ofRouteDict decision)] }

/-- The `ROUTE_EXECUTED` audit record of the success path. -/
def executedRec (role : Role) (query classification : String) (decision : RouteDict)
    (execution : ExecResult) : AuditRec :=
  { event := ROUTE_EXECUTED,
    payload := [("role", .s role.str), ("query", .s query),
                ("classification", .s classification),
                ("decision", .ofRouteDict decision),
                ("execution", .ofExecResult execution)] }

/-- The body of the `route_from_search` endpoint with the local `role`
variable abstracted (the committed source fixes it to `Role.OPERATOR` on the
line above the try block).  Returns the audit records appended during the
request together with the response or the propagated exception. -/
def routeFromSearchWith (env : RouteEnv) (role : Role) (query : String) (topK : Int) :
    List AuditRec × Except PyErr RouteResponse :=
  match enforce_permission role .executeWorkflow with
  | some e => handleRouteErr role query [] e
  | none =>
    match hybrid_search env.encode env.store query topK 3 with
    | .error e => handleRouteErr role query [] e
    | .ok searchResults =>
      if searchResults.isEmpty then
        handleRouteErr role query [] (.emptySearchResults "No relevant documents found")
      else
        let classification := (classify_text env.cleanText query).1
        let decision := WorkflowRouter.route env.rules classification query
        if decision.isEmpty then
          handleRouteErr role query [] (.noRouteMatched "No workflow rule matched")
        else
          let decRec := decisionRec role query classification decision
          let (execution, execRec) := WorkflowExecutor.execute decision
            [("query", .s query), ("classification", .s classification), ("top_k", .i topK)]
          let doneRec := executedRec role query classification decision execution
          ([decRec, execRec, doneRec],
            .ok { role := role, query := query, classification := classification,
                  decision := decision, execution := execution,
                  searchResults := searchResults })

/-- `route_from_search` of app/main.py: the body with the hard-coded
`role = Role.OPERATOR`. -/
def route_from_search (env : RouteEnv) (query : String) (topK : Int) :
    List AuditRec × Except PyErr RouteResponse :=
  routeFromSearchWith env .operator query topK

/-! ### Sequences of store mutations (for the ledger invariant) -/

/-- One mutating call against the store. -/
inductive StoreOp where
  | addDoc (input : AddInput)
  | addEmb (embeddings : List Vec) (metadatas : List MetaRec)
deriving DecidableEq, Repr

/-- Applying one call: on an exception the caller's store object is
unchanged (every raise in the source happens before the mutation). -/
def applyOp (encode : String → Vec) (s : FAISSStore) : StoreOp → FAISSStore
  | .addDoc input =>
    match add_document encode s input with
    | .ok s1 => s1
    | .error _ => s
  | .addEmb embeddings metadatas =>
    match add_embeddings s embeddings metadatas with
    | .ok s1 => s1
    | .error _ => s

/-- Running a sequence of mutating calls against the fresh store. -/
def runOps (encode : String → Vec) (ops : List StoreOp) : FAISSStore :=
  ops.foldl (applyOp encode) emptyStore

/-! ### Specification-side predicates and fixtures for the claims -/

/-- Success test on a fallible result (`Except.ok`). -/
def exceptOk {ε α : Type} : Except ε α → Bool
  | .ok _ => true
  | .error _ => false

/-- Spec-side reading of rule matching, written from the claim: every present
condition matches, where a `classification` condition requires exact string
equality and a `keyword_contains` condition requires some listed keyword to
occur as a lowercase contiguous substring of the lowercased text. -/
def RuleMatchesSpec (classification : String) (text : String) (rule : Rule) : Prop :=
  (∀ c, rule.whenClassification = some c → classification = c) ∧
  (∀ ks, rule.whenKeywords = some ks → ∃ k ∈ ks, lowerChars k <:+: lowerChars text)

/-- The mutating call carries no caller-supplied `vector_id` (the
`setdefault` in the source keeps a pre-set id instead of assigning the
sequential one). -/
def opClean : StoreOp → Prop
  | .addDoc (.dict m) => m.vectorId = none
  | .addDoc _ => True
  | .addEmb _ metadatas => ∀ m ∈ metadatas, m.vectorId = none

/-- Ledger positions carry their own index as `vector_id`. -/
def LedgerSeq (s : FAISSStore) : Prop :=
  ∀ (i : Nat) (hi : i < s.metadata.length), (s.metadata.get ⟨i, hi⟩).vectorId = some i

/-- Position property over a plain list of records, the building block of
`LedgerSeq` shifted by an offset. -/
def SeqFrom (base : Nat) (l : List MetaRec) : Prop :=
  ∀ (j : Nat) (hj : j < l.length), (l.get ⟨j, hj⟩).vectorId = some (base + j)

/-- Inputs of `add_document` from which no text can be extracted: an empty
plain string, a dict whose `text` key is absent or empty, or a value that is
neither a str nor a dict. -/
def noExtractableText : AddInput → Prop
  | .str t => t = ""
  | .dict m => m.text = none ∨ m.text = some ""
  | .invalid => True

/-- Group invariant tying a built group to the hits it was assembled from:
nonempty chunk list from the source hits, all keyed by the group source, with
`best` the maximum combined score. -/
def GroupInv (S : RankedHit → Prop) (g : DocGroup) : Prop :=
  g.chunks ≠ [] ∧
  (∀ c ∈ g.chunks, S c ∧ hitKey c = g.source) ∧
  (∀ c ∈ g.chunks, c.combined ≤ g.best) ∧
  (∃ c ∈ g.chunks, c.combined = g.best)

/-- Fixture: a one-dimensional embedding model (a store loaded from a
pre-existing index artifact can have any dimension). -/
def zeroEncode : String → Vec := fun _ => [0]

/-- Fixture: an embedding model of the default dimension. -/
def encode384 : String → Vec := fun _ => List.replicate EMBEDDING_DIM 0

/-- Fixture: a one-record store matching `zeroEncode`. -/
def demoStore : FAISSStore :=
  { dim := 1, index := [[0]],
    metadata := [{ text := some "pay", sourceFile := some "a.txt" }] }

/-- Fixture: a reranked hit. -/
def demoRanked : RankedHit :=
  { meta := { text := some "pay", sourceFile := some "a.txt" },
    score := 0, kwScore := 1, combined := 1 }

/-- Fixture: the rule set of the testable-properties section of the design
notes: one classification rule and a logging default route. -/
def urgentRules : Rules :=
  { routes := [{ whenClassification := some "urgent", route := [("action", "queue")] }],
    defaultRoute := [("action", "log")] }

/-- Fixture: process state with `demoStore`, an identity normaliser and a
rule set whose default route is nonempty, so a governed request succeeds. -/
def demoEnv : RouteEnv :=
  { encode := zeroEncode, cleanText := fun s => s, store := demoStore,
    rules := { routes := [], defaultRoute := [("action", "log")] } }

/-! ## Lemmas about the stable descending sort -/

theorem insertDesc_perm {α : Type} (key : α → ℚ) (x : α) (l : List α) :
    (insertDesc key x l).Perm (x :: l) := by
  induction l with
  | nil => simp [insertDesc]
  | cons y ys ih =>
    by_cases h : key y ≤ key x
    · simp [insertDesc, h]
    · simpa [insertDesc, h] using (ih.cons y).trans (List.Perm.swap x y ys)

theorem pySortDesc_perm {α : Type} (key : α → ℚ) (l : List α) :
    (pySortDesc key l).Perm l := by
  induction l with
  | nil => simp [pySortDesc]
  | cons x xs ih =>
    simpa [pySortDesc] using (insertDesc_perm key x (pySortDesc key xs)).trans (ih.cons x)

theorem mem_insertDesc {α : Type} (key : α → ℚ) {x z : α} {l : List α} :
    z ∈ insertDesc key x l ↔ z = x ∨ z ∈ l := by
  rw [(insertDesc_perm key x l).mem_iff, List.mem_cons]

theorem mem_pySortDesc {α : Type} (key : α → ℚ) {z : α} {l : List α} :
    z ∈ pySortDesc key l ↔ z ∈ l :=
  (pySortDesc_perm key l).mem_iff

theorem insertDesc_pairwise {α : Type} (key : α → ℚ) (x : α) {l : List α}
    (h : l.Pairwise (fun a b => key b ≤ key a)) :
    (insertDesc key x l).Pairwise (fun a b => key b ≤ key a) := by
  induction l with
  | nil => simp [insertDesc]
  | cons y ys ih =>
    rcases List.pairwise_cons.mp h with ⟨hy, hys⟩
    by_cases hxy : key y ≤ key x
    · rw [insertDesc, if_pos hxy]
      refine List.pairwise_cons.mpr ⟨?_, h⟩
      intro z hz
      rcases List.mem_cons.mp hz with rfl | hz
      · exact hxy
      · exact le_trans (hy z hz) hxy
    · rw [insertDesc, if_neg hxy]
      refine List.pairwise_cons.mpr ⟨?_, ih hys⟩
      intro z hz
      rcases (mem_insertDesc key).mp hz with rfl | hz
      · exact le_of_lt (lt_of_not_le hxy)
      · exact hy z hz

theorem pySortDesc_pairwise {α : Type} (key : α → ℚ) (l : List α) :
    (pySortDesc key l).Pairwise (fun a b => key b ≤ key a) := by
  induction l with
  | nil => simp [pySortDesc]
  | cons x xs ih => exact insertDesc_pairwise key x ih

theorem filter_insertDesc_eq {α : Type} (key : α → ℚ) (v : ℚ) (x : α) (l : List α)
    (hx : key x = v) :
    (insertDesc key x l).filter (fun a => key a == v) =
      x :: l.filter (fun a => key a == v) := by
  induction l with
  | nil => simp [insertDesc, List.filter_cons, hx]
  | cons y ys ih =>
    by_cases hxy : key y ≤ key x
    · rw [insertDesc, if_pos hxy]
      simp [List.filter_cons, hx]
    · have hyv : (key y == v) = false := by
        have hlt : key x < key y := lt_of_not_le hxy
        simp only [beq_eq_false_iff_ne, ne_eq]
        intro hyv
        exact absurd (hx ▸ hyv ▸ hlt) (lt_irrefl _)
      rw [insertDesc, if_neg hxy]
      simp [List.filter_cons, hyv, ih]

theorem filter_insertDesc_ne {α : Type} (key : α → ℚ) (v : ℚ) (x : α) (l : List α)
    (hx : key x ≠ v) :
    (insertDesc key x l).filter (fun a => key a == v) =
      l.filter (fun a => key a == v) := by
  have hxv : (key x == v) = false := by simpa using hx
  induction l with
  | nil => simp [insertDesc, List.filter_cons, hxv]
  | cons y ys ih =>
    by_cases hxy : key y ≤ key x
    · rw [insertDesc, if_pos hxy]
      simp [List.filter_cons, hxv]
    · rw [insertDesc, if_neg hxy]
      simp [List.filter_cons, ih]

theorem pySortDesc_filter {α : Type} (key : α → ℚ) (v : ℚ) (l : List α) :
    (pySortDesc key l).filter (fun a => key a == v) = l.filter (fun a => key a == v) := by
  induction l with
  | nil => rfl
  | cons x xs ih =>
    by_cases hx : key x = v
    · rw [pySortDesc, filter_insertDesc_eq key v x _ hx, ih, List.filter_cons]
      simp [hx]
    · rw [pySortDesc, filter_insertDesc_ne key v x _ hx, ih, List.filter_cons]
      simp [hx]

/-! ## C7: the reranker -/

/-- C7: for every query and list of hits, `rerank` enriches each hit with
`combined_score = 0.3 * keyword_score(query, text) + 0.7 * (1 / (1 + score))`
and returns the enriched hits sorted descending by `combined_score`, with
ties kept in the hits' original relative order (stable sort): the output is a
permutation of the enriched input, is pairwise descending on
`combined_score`, and for every score value the sub-sequence of hits with
that value is exactly the corresponding sub-sequence of the enriched
input. -/
theorem rerank_spec (query : String) (hits : List SearchHit) :
    (rerank query hits).Perm (hits.map (enrich query)) ∧
    (rerank query hits).Pairwise (fun a b => b.combined ≤ a.combined) ∧
    (∀ v : ℚ, (rerank query hits).filter (fun r => r.combined == v) =
      (hits.map (enrich query)).filter (fun r => r.combined == v)) ∧
    ∀ h : SearchHit, (enrich query h).combined =
      3/10 * keyword_score query (h.meta.text.getD "") + 7/10 * (1 / (1 + h.score)) :=
  ⟨pySortDesc_perm _ _, pySortDesc_pairwise _ _,
    fun v => pySortDesc_filter _ v _, fun _ => rfl⟩

/-- C7 instance: the reranker properties at a concrete input. -/
theorem rerank_spec_witness :
    (rerank "pay" [{ meta := { text := some "pay" }, score := 0 }]).Perm
      ([{ meta := { text := some "pay" }, score := 0 }].map (enrich "pay")) ∧
    (rerank "pay" [{ meta := { text := some "pay" }, score := 0 }]).Pairwise
      (fun a b => b.combined ≤ a.combined) ∧
    (∀ v : ℚ, (rerank "pay" [{ meta := { text := some "pay" }, score := 0 }]).filter
        (fun r => r.combined == v) =
      ([{ meta := { text := some "pay" }, score := 0 }].map (enrich "pay")).filter
        (fun r => r.combined == v)) ∧
    ∀ h : SearchHit, (enrich "pay" h).combined =
      3/10 * keyword_score "pay" (h.meta.text.getD "") + 7/10 * (1 / (1 + h.score)) :=
  rerank_spec "pay" [{ meta := { text := some "pay" }, score := 0 }]

/-! ## C9: keyword score identities -/

/-- C9 counterexample: `"!!!"` is a non-empty query string, yet
`keyword_score("!!!", "!!!")` is `0.0`, not `1.0` — a query without word
tokens hits the `0.0` early return even against itself. -/
theorem keyword_score_no_token_query :
    ("!!!" : String) ≠ "" ∧ keyword_score "!!!" "!!!" = 0 := by
  exact ⟨by decide, by decide⟩

/-- C9 (amended): for every query with at least one word token,
`keyword_score(query, query) = 1.0`; and for every text,
`keyword_score("", text) = 0.0`. -/
theorem keyword_score_self_and_empty (query text : String)
    (hq : findallWordTokens query ≠ []) :
    keyword_score query query = 1 ∧ keyword_score "" text = 0 := by
  constructor
  · have hcard : ((findallWordTokens query).toFinset.card) ≠ 0 := by
      intro h
      exact hq (by simpa using Finset.card_eq_zero.mp h)
    show (if (findallWordTokens query).toFinset.card = 0 then (0 : ℚ)
      else (((findallWordTokens query).toFinset ∩ (findallWordTokens query).toFinset).card : ℚ) /
        ((findallWordTokens query).toFinset.card : ℚ)) = 1
    rw [if_neg hcard, Finset.inter_self]
    exact div_self (by exact_mod_cast hcard)
  · show (if (findallWordTokens "").toFinset.card = 0 then (0 : ℚ)
      else (((findallWordTokens "").toFinset ∩ (findallWordTokens text).toFinset).card : ℚ) /
        ((findallWordTokens "").toFinset.card : ℚ)) = 0
    rw [if_pos (by decide)]

/-- C9 witness: the amended identities at a concrete query with a word
token. -/
theorem keyword_score_self_and_empty_witness :
    findallWordTokens "hello" ≠ [] ∧
      (keyword_score "hello" "hello" = 1 ∧ keyword_score "" "world" = 0) :=
  ⟨by decide, keyword_score_self_and_empty "hello" "world" (by decide)⟩

/-! ## C6: the workflow router -/

theorem isPrefixB_iff (n h : List Char) : isPrefixB n h = true ↔ n <+: h := by
  induction n generalizing h with
  | nil => simp [isPrefixB]
  | cons a as ih =>
    cases h with
    | nil => simp [isPrefixB]
    | cons b bs => simp [isPrefixB, List.cons_prefix_cons, ih]

theorem containsSub_iff (n h : List Char) : containsSub n h = true ↔ n <:+: h := by
  induction h with
  | nil => simp [containsSub, List.isEmpty_iff]
  | cons c rest ih => simp [containsSub, isPrefixB_iff, ih, List.infix_cons_iff]

/-- Decomposition of the first-match search: either some element satisfies
the test, and `find?` returns the first such element, or none does and
`find?` returns `none`. -/
theorem find_first_decomp {α : Type} (p : α → Bool) (l : List α) :
    (∃ pre x post, l = pre ++ x :: post ∧ p x = true ∧ (∀ y ∈ pre, p y = false) ∧
      l.find? p = some x) ∨
    ((∀ x ∈ l, p x = false) ∧ l.find? p = none) := by
  induction l with
  | nil => right; simp
  | cons a t ih =>
    by_cases ha : p a = true
    · exact Or.inl ⟨[], a, t, by simp, ha, by simp, by simp [List.find?_cons_of_pos _ ha]⟩
    · have ha' : p a = false := by simpa using ha
      rcases ih with ⟨pre, x, post, hl, hx, hpre, hfind⟩ | ⟨hall, hfind⟩
      · refine Or.inl ⟨a :: pre, x, post, by simp [hl], hx, ?_, ?_⟩
        · intro y hy
          rcases List.mem_cons.mp hy with rfl | hy
          · exact ha'
          · exact hpre y hy
        · rw [List.find?_cons_of_neg _ ha, hfind]
      · refine Or.inr ⟨?_, ?_⟩
        · intro x hx
          rcases List.mem_cons.mp hx with rfl | hx
          · exact ha'
          · exact hall x hx
        · rw [List.find?_cons_of_neg _ ha, hfind]

/-- The boolean test run by the routing loop agrees with the spec-side
reading of rule matching. -/
theorem ruleMatches_iff (classification text : String) (rule : Rule) :
    ruleMatches classification (lowerChars text) rule = true ↔
      RuleMatchesSpec classification text rule := by
  unfold ruleMatches RuleMatchesSpec
  rcases rule.whenClassification with _ | c <;> rcases rule.whenKeywords with _ | ks <;>
    simp [List.any_eq_true, containsSub_iff]

/-- C6: for every rule list, classification and text, `route` returns the
route payload of the first rule (in list order) all of whose present
conditions match — classification by exact equality, `keyword_contains` by
some keyword occurring as a lowercase substring of the lowercased text — and
returns the configured default route when no rule matches.  `route` is a
total function, so routing never fails at routing time. -/
theorem router_first_match (rules : Rules) (classification text : String) :
    (∃ pre rule post,
      rules.routes = pre ++ rule :: post ∧
      RuleMatchesSpec classification text rule ∧
      (∀ r ∈ pre, ¬ RuleMatchesSpec classification text r) ∧
      WorkflowRouter.route rules classification text = rule.route) ∨
    ((∀ r ∈ rules.routes, ¬ RuleMatchesSpec classification text r) ∧
      WorkflowRouter.route rules classification text = rules.defaultRoute) := by
  rcases find_first_decomp (ruleMatches classification (lowerChars text)) rules.routes with
    ⟨pre, x, post, hl, hx, hpre, hfind⟩ | ⟨hall, hfind⟩
  · refine Or.inl ⟨pre, x, post, hl, (ruleMatches_iff classification text x).mp hx, ?_, ?_⟩
    · intro r hr hmat
      exact absurd ((ruleMatches_iff classification text r).mpr hmat) (by simp [hpre r hr])
    · unfold WorkflowRouter.route
      rw [hfind]
  · refine Or.inr ⟨?_, ?_⟩
    · intro r hr hmat
      exact absurd ((ruleMatches_iff classification text r).mpr hmat) (by simp [hall r hr])
    · unfold WorkflowRouter.route
      rw [hfind]

/-- C6 instance: the router characterisation at a concrete rule set. -/
theorem router_first_match_witness :
    (∃ pre rule post,
      urgentRules.routes = pre ++ rule :: post ∧
      RuleMatchesSpec "urgent" "anything" rule ∧
      (∀ r ∈ pre, ¬ RuleMatchesSpec "urgent" "anything" r) ∧
      WorkflowRouter.route urgentRules "urgent" "anything" = rule.route) ∨
    ((∀ r ∈ urgentRules.routes, ¬ RuleMatchesSpec "urgent" "anything" r) ∧
      WorkflowRouter.route urgentRules "urgent" "anything" = urgentRules.defaultRoute) :=
  router_first_match urgentRules "urgent" "anything"

/-! ## C8: document grouping -/

theorem groupInsert_inv {S : RankedHit → Prop} {item : RankedHit} (hS : S item)
    {gs : List DocGroup} (hgs : ∀ g ∈ gs, GroupInv S g) :
    ∀ g ∈ groupInsert item gs, GroupInv S g := by
  induction gs with
  | nil =>
    intro g hg
    simp only [groupInsert, List.mem_singleton] at hg
    subst hg
    refine ⟨by simp, ?_, ?_, ⟨item, by simp, rfl⟩⟩
    · intro c hc
      simp only [List.mem_singleton] at hc
      subst hc
      exact ⟨hS, rfl⟩
    · intro c hc
      simp only [List.mem_singleton] at hc
      subst hc
      exact le_refl _
  | cons g0 gs ih =>
    intro g hg
    rw [groupInsert] at hg
    by_cases hsrc : g0.source = hitKey item
    · rw [if_pos hsrc] at hg
      rcases List.mem_cons.mp hg with rfl | hg
      · obtain ⟨hne, hmem, hle, c0, hc0, hc0b⟩ := hgs g0 (List.mem_cons_self _ _)
        refine ⟨by simp, ?_, ?_, ?_⟩
        · intro c hc
          rcases List.mem_append.mp hc with hc | hc
          · exact hmem c hc
          · simp only [List.mem_singleton] at hc
            subst hc
            exact ⟨hS, hsrc.symm⟩
        · intro c hc
          rcases List.mem_append.mp hc with hc | hc
          · exact le_trans (hle c hc) (le_max_left _ _)
          · simp only [List.mem_singleton] at hc
            subst hc
            exact le_max_right _ _
        · rcases le_total g0.best item.combined with hcmp | hcmp
          · exact ⟨item, by simp, (max_eq_right hcmp).symm⟩
          · exact ⟨c0, List.mem_append_left _ hc0, by rw [max_eq_left hcmp]; exact hc0b⟩
      · exact hgs g (List.mem_cons_of_mem _ hg)
    · rw [if_neg hsrc] at hg
      rcases List.mem_cons.mp hg with rfl | hg
      · exact hgs g (List.mem_cons_self _ _)
      · exact ih (fun g' hg' => hgs g' (List.mem_cons_of_mem _ hg')) g hg

theorem foldGroups_inv {S : RankedHit → Prop} (items : List RankedHit) :
    ∀ (gs : List DocGroup), (∀ i ∈ items, S i) → (∀ g ∈ gs, GroupInv S g) →
      ∀ g ∈ items.foldl (fun a i => groupInsert i a) gs, GroupInv S g := by
  induction items with
  | nil =>
    intro gs _ hgs
    simpa using hgs
  | cons i it ih =>
    intro gs hS hgs
    rw [List.foldl_cons]
    exact ih _ (fun x hx => hS x (List.mem_cons_of_mem _ hx))
      (groupInsert_inv (hS i (List.mem_cons_self _ _)) hgs)

theorem buildGroups_inv (items : List RankedHit) :
    ∀ g ∈ buildGroups items, GroupInv (· ∈ items) g :=
  foldGroups_inv items [] (fun _ h => h) (by simp)

theorem source_mem_groupInsert_self (item : RankedHit) (gs : List DocGroup) :
    hitKey item ∈ (groupInsert item gs).map (fun g => g.source) := by
  induction gs with
  | nil => simp [groupInsert]
  | cons g0 gs ih =>
    rw [groupInsert]
    by_cases hsrc : g0.source = hitKey item
    · rw [if_pos hsrc]
      exact List.mem_map.mpr ⟨_, List.mem_cons_self _ _, hsrc⟩
    · rw [if_neg hsrc]
      simp only [List.map_cons, List.mem_cons]
      exact Or.inr ih

theorem source_mem_groupInsert_mono (item : RankedHit) {s : String} {gs : List DocGroup}
    (h : s ∈ gs.map (fun g => g.source)) :
    s ∈ (groupInsert item gs).map (fun g => g.source) := by
  induction gs with
  | nil => simp at h
  | cons g0 gs ih =>
    simp only [List.map_cons, List.mem_cons] at h
    rw [groupInsert]
    by_cases hsrc : g0.source = hitKey item
    · rw [if_pos hsrc]
      simp only [List.map_cons, List.mem_cons]
      exact h
    · rw [if_neg hsrc]
      simp only [List.map_cons, List.mem_cons]
      rcases h with h | h
      · exact Or.inl h
      · exact Or.inr (ih h)

theorem source_mem_fold (items : List RankedHit) :
    ∀ (gs : List DocGroup) (s : String), s ∈ gs.map (fun g => g.source) →
      s ∈ (items.foldl (fun a i => groupInsert i a) gs).map (fun g => g.source) := by
  induction items with
  | nil =>
    intro gs s h
    simpa using h
  | cons i it ih =>
    intro gs s h
    rw [List.foldl_cons]
    exact ih _ s (source_mem_groupInsert_mono i h)

theorem fold_covers (items : List RankedHit) :
    ∀ (gs : List DocGroup) (item : RankedHit), item ∈ items →
      hitKey item ∈ (items.foldl (fun a i => groupInsert i a) gs).map (fun g => g.source) := by
  induction items with
  | nil =>
    intro gs item h
    simp at h
  | cons i it ih =>
    intro gs item h
    rw [List.foldl_cons]
    rcases List.mem_cons.mp h with rfl | h
    · exact source_mem_fold it _ _ (source_mem_groupInsert_self item gs)
    · exact ih _ item h

/-- C8: for every list of ranked hits and every per-document cap, the
grouping step partitions the hits by `source_file` (a missing source goes to
the literal key "unknown", which is what `hitKey` computes), every group
carries at most `max_per_doc` chunks, every kept chunk comes from the input
hits and carries the group's key, each nonempty group's score is the maximum
`combined_score` among its kept hits, every hit's key is represented by some
group, and the groups are ordered descending by score. -/
theorem group_and_cap_spec (items : List RankedHit) (n : Nat) :
    (∀ g ∈ groupAndCap items n,
      g.chunks.length ≤ n ∧
      (∀ c ∈ g.chunks, c ∈ items ∧ hitKey c = g.source) ∧
      (g.chunks ≠ [] →
        (∀ c ∈ g.chunks, c.combined ≤ g.best) ∧ ∃ c ∈ g.chunks, c.combined = g.best)) ∧
    (∀ item ∈ items, ∃ g ∈ groupAndCap items n, g.source = hitKey item) ∧
    (groupAndCap items n).Pairwise (fun a b => b.best ≤ a.best) := by
  refine ⟨?_, ?_, pySortDesc_pairwise _ _⟩
  · intro g hg
    have hg' : g ∈ (buildGroups items).map (capGroup n) := (mem_pySortDesc _).mp hg
    rcases List.mem_map.mp hg' with ⟨g0, hg0, rfl⟩
    obtain ⟨hne, hmem, hle, c0, hc0, hc0b⟩ := buildGroups_inv items g0 hg0
    have hsub : ∀ c ∈ (capGroup n g0).chunks, c ∈ g0.chunks := by
      intro c hc
      exact (mem_pySortDesc _).mp ((List.take_sublist _ _).mem hc)
    refine ⟨?_, ?_, ?_⟩
    · rw [capGroup, List.length_take]
      exact min_le_left _ _
    · intro c hc
      exact hmem c (hsub c hc)
    · intro hkept
      refine ⟨fun c hc => hle c (hsub c hc), ?_⟩
      rcases hsort : pySortDesc (fun c => c.combined) g0.chunks with _ | ⟨c1, rest⟩
      · exact absurd (by simp [capGroup, hsort]) hkept
      · cases n with
        | zero => exact absurd (by simp [capGroup]) hkept
        | succ m =>
          have hc1kept : c1 ∈ (capGroup (m + 1) g0).chunks := by
            rw [capGroup, hsort]
            exact List.mem_cons_self _ _
          have hc1mem : c1 ∈ g0.chunks :=
            (mem_pySortDesc _).mp (hsort ▸ List.mem_cons_self c1 rest)
          have hbestle : g0.best ≤ c1.combined := by
            have hc0' : c0 ∈ c1 :: rest := hsort ▸ (mem_pySortDesc _).mpr hc0
            rcases List.mem_cons.mp hc0' with rfl | hc0''
            · exact le_of_eq hc0b.symm
            · have hpair := pySortDesc_pairwise (fun c => c.combined) g0.chunks
              rw [hsort] at hpair
              exact hc0b ▸ (List.pairwise_cons.mp hpair).1 c0 hc0''
          exact ⟨c1, hc1kept, le_antisymm (hle c1 hc1mem) hbestle⟩
  · intro item hitem
    have h1 : hitKey item ∈ (buildGroups items).map (fun g => g.source) :=
      fold_covers items [] item hitem
    have h2 : hitKey item ∈ ((buildGroups items).map (capGroup n)).map (fun g => g.source) := by
      rw [List.map_map]
      exact h1
    have h3 : hitKey item ∈ (groupAndCap items n).map (fun g => g.source) := by
      rw [groupAndCap]
      exact ((pySortDesc_perm (fun g => g.best) _).map _).mem_iff.mpr h2
    exact List.mem_map.mp h3

/-- C8 instance: the grouping-step properties at a concrete input. -/
theorem group_and_cap_spec_witness :
    (∀ g ∈ groupAndCap [demoRanked] 3,
      g.chunks.length ≤ 3 ∧
      (∀ c ∈ g.chunks, c ∈ [demoRanked] ∧ hitKey c = g.source) ∧
      (g.chunks ≠ [] →
        (∀ c ∈ g.chunks, c.combined ≤ g.best) ∧ ∃ c ∈ g.chunks, c.combined = g.best)) ∧
    (∀ item ∈ [demoRanked], ∃ g ∈ groupAndCap [demoRanked] 3, g.source = hitKey item) ∧
    (groupAndCap [demoRanked] 3).Pairwise (fun a b => b.best ≤ a.best) :=
  group_and_cap_spec [demoRanked] 3

/-! ## C3: the index/ledger pairing invariant -/

theorem add_document_ok_shape {encode : String → Vec} {s : FAISSStore} {input : AddInput}
    {s1 : FAISSStore} (h : add_document encode s input = .ok s1) :
    ∃ (textOpt : Option String) (meta : MetaRec) (embedding : Vec),
      extractInput input = .ok (textOpt, meta) ∧
      embedding.length = s.dim ∧
      s1 = { s with
        index := s.index ++ [embedding],
        metadata := s.metadata ++
          [{ meta with
             createdAt := some (meta.createdAt.getD CREATED_AT_PLACEHOLDER),
             vectorId := some (meta.vectorId.getD s.metadata.length) }] } := by
  unfold add_document at h
  split at h
  · exact absurd h (by simp)
  · rename_i textOpt meta hx
    split at h
    · exact absurd h (by simp)
    · rename_i embedding hemb
      split at h
      · exact absurd h (by simp)
      · rename_i s2 hfa
        unfold faissAdd at hfa
        split at hfa
        · rename_i hdim
          obtain rfl : ({ s with index := s.index ++ [embedding] } : FAISSStore) = s2 := by
            simpa using hfa
          refine ⟨textOpt, meta, embedding, hx, hdim, ?_⟩
          have h' := h
          simp only [Except.ok.injEq] at h'
          exact h'.symm
        · exact absurd hfa (by simp)

theorem add_embeddings_ok_shape {s : FAISSStore} {embeddings : List Vec}
    {metadatas : List MetaRec} {s1 : FAISSStore}
    (h : add_embeddings s embeddings metadatas = .ok s1) :
    embeddings.length = metadatas.length ∧
    s1 = { s with
      index := s.index ++ embeddings,
      metadata := s.metadata ++ metadatas.enum.map (fun p =>
        { p.2 with
          createdAt := some (p.2.createdAt.getD CREATED_AT_PLACEHOLDER),
          vectorId := some (p.2.vectorId.getD (s.metadata.length + p.1)) }) } := by
  unfold add_embeddings at h
  split at h
  · exact absurd h (by simp)
  · rename_i hlen
    split at h
    · exact absurd h (by simp)
    · rename_i s2 hbatch
      unfold faissAddBatch at hbatch
      split at hbatch
      · refine ⟨by omega, ?_⟩
        obtain rfl : { s with index := s.index ++ embeddings } = s2 := by
          simpa using hbatch
        simpa using h.symm
      · exact absurd hbatch (by simp)

theorem seqFrom_append {base : Nat} {l₁ l₂ : List MetaRec}
    (h₁ : SeqFrom base l₁) (h₂ : SeqFrom (base + l₁.length) l₂) :
    SeqFrom base (l₁ ++ l₂) := by
  intro j hj
  rcases lt_or_ge j l₁.length with hlt | hge
  · rw [List.get_eq_getElem, List.getElem_append_left hlt]
    exact h₁ j hlt
  · have hj₂ : j - l₁.length < l₂.length := by
      rw [List.length_append] at hj
      omega
    rw [List.get_eq_getElem, List.getElem_append_right hge]
    have := h₂ (j - l₁.length) hj₂
    rw [List.get_eq_getElem] at this
    rw [this]
    congr 1
    omega

theorem ledgerSeq_iff (s : FAISSStore) : LedgerSeq s ↔ SeqFrom 0 s.metadata := by
  unfold LedgerSeq SeqFrom
  constructor
  · intro h j hj
    rw [h j hj]
    simp
  · intro h j hj
    rw [h j hj]
    simp

theorem applyOp_len (encode : String → Vec) (s : FAISSStore) (op : StoreOp)
    (hlen : s.index.length = s.metadata.length) :
    (applyOp encode s op).index.length = (applyOp encode s op).metadata.length := by
  cases op with
  | addDoc input =>
    simp only [applyOp]
    cases hadd : add_document encode s input with
    | error e => exact hlen
    | ok s1 =>
      obtain ⟨textOpt, meta, embedding, _, _, rfl⟩ := add_document_ok_shape hadd
      simp [hlen]
  | addEmb embeddings metadatas =>
    simp only [applyOp]
    cases hadd : add_embeddings s embeddings metadatas with
    | error e => exact hlen
    | ok s1 =>
      obtain ⟨hn, rfl⟩ := add_embeddings_ok_shape hadd
      simp [hlen, hn]

theorem applyOp_seq (encode : String → Vec) (s : FAISSStore) (op : StoreOp)
    (hop : opClean op) (hseq : LedgerSeq s) : LedgerSeq (applyOp encode s op) := by
  cases op with
  | addDoc input =>
    simp only [applyOp]
    cases hadd : add_document encode s input with
    | error e => exact hseq
    | ok s1 =>
      obtain ⟨textOpt, meta, embedding, hx, _, rfl⟩ := add_document_ok_shape hadd
      rw [ledgerSeq_iff]
      refine seqFrom_append ((ledgerSeq_iff s).mp hseq) ?_
      intro j hj
      obtain rfl : j = 0 := by
        simpa using Nat.lt_one_iff.mp (by simpa using hj)
      have hmv : meta.vectorId = none := by
        cases input with
        | str t =>
          obtain ⟨rfl, rfl⟩ : some t = textOpt ∧ ({ text := some t } : MetaRec) = meta := by
            simpa [extractInput] using hx
          rfl
        | dict m =>
          obtain ⟨rfl, rfl⟩ : m.text = textOpt ∧ m = meta := by
            simpa [extractInput] using hx
          exact hop
        | invalid => simp [extractInput] at hx
      simp [hmv]
  | addEmb embeddings metadatas =>
    simp only [applyOp]
    cases hadd : add_embeddings s embeddings metadatas with
    | error e => exact hseq
    | ok s1 =>
      obtain ⟨hn, rfl⟩ := add_embeddings_ok_shape hadd
      rw [ledgerSeq_iff]
      refine seqFrom_append ((ledgerSeq_iff s).mp hseq) ?_
      intro j hj
      have hj' : j < metadatas.length := by simpa using hj
      have hget : (metadatas.enum.map (fun p =>
          ({ p.2 with
             createdAt := some (p.2.createdAt.getD CREATED_AT_PLACEHOLDER),
             vectorId := some (p.2.vectorId.getD (s.metadata.length + p.1)) } : MetaRec))).get
            ⟨j, hj⟩ =
          { metadatas.get ⟨j, hj'⟩ with
            createdAt := some ((metadatas.get ⟨j, hj'⟩).createdAt.getD CREATED_AT_PLACEHOLDER),
            vectorId := some ((metadatas.get ⟨j, hj'⟩).vectorId.getD (s.metadata.length + j)) } := by
        simp [List.get_eq_getElem, List.getElem_enum]
      rw [hget]
      have hmv : (metadatas.get ⟨j, hj'⟩).vectorId = none :=
        hop (metadatas.get ⟨j, hj'⟩) (List.get_mem _ _ hj')
      rw [List.get_eq_getElem] at hmv
      simp [hmv]

/-- C3 counterexample: one `add_document` call on the fresh store whose
metadata dict already carries `vector_id = 5`: the call succeeds, but the
record at position 0 keeps `vector_id = 5` (the source uses `setdefault`), so
position and `vector_id` disagree. -/
theorem store_vector_id_preset :
    (runOps encode384 [.addDoc (.dict { text := some "a", vectorId := some 5 })]).metadata.map
        (fun m => m.vectorId) = [some 5] ∧
    ¬ LedgerSeq (runOps encode384 [.addDoc (.dict { text := some "a", vectorId := some 5 })]) := by
  constructor
  · rfl
  · intro h
    have h0 := h 0 (by decide)
    revert h0
    decide

/-- C3 (amended): after any sequence of `add_document` / `add_embeddings`
calls on an initially empty store, the vector index and the metadata ledger
have the same length; and provided no call supplies a metadata record that
already carries a `vector_id` key, the record at position `i` has
`vector_id = i`.  (The `setdefault` in the source keeps a caller-supplied id,
so the second part needs the proviso.) -/
theorem foldOps_len (encode : String → Vec) (ops : List StoreOp) :
    ∀ (s : FAISSStore), s.index.length = s.metadata.length →
      (ops.foldl (applyOp encode) s).index.length =
        (ops.foldl (applyOp encode) s).metadata.length := by
  induction ops with
  | nil =>
    intro s h
    simpa using h
  | cons op rest ih =>
    intro s h
    rw [List.foldl_cons]
    exact ih _ (applyOp_len encode s op h)

theorem foldOps_seq (encode : String → Vec) (ops : List StoreOp) :
    ∀ (s : FAISSStore), (∀ op ∈ ops, opClean op) → LedgerSeq s →
      LedgerSeq (ops.foldl (applyOp encode) s) := by
  induction ops with
  | nil =>
    intro s _ h
    simpa using h
  | cons op rest ih =>
    intro s hclean h
    rw [List.foldl_cons]
    exact ih _ (fun o ho => hclean o (List.mem_cons_of_mem _ ho))
      (applyOp_seq encode s op (hclean op (List.mem_cons_self _ _)) h)

theorem store_ledger_invariant (encode : String → Vec) (ops : List StoreOp) :
    ((runOps encode ops).index.length = (runOps encode ops).metadata.length) ∧
    ((∀ op ∈ ops, opClean op) → LedgerSeq (runOps encode ops)) :=
  ⟨foldOps_len encode ops emptyStore rfl,
    fun hclean => foldOps_seq encode ops emptyStore hclean
      (fun _ hi => absurd hi (by simp [emptyStore]))⟩

/-- C3 witness: the amended invariant at a concrete clean call sequence. -/
theorem store_ledger_invariant_witness :
    (((runOps encode384 [.addDoc (.str "a")]).index.length =
        (runOps encode384 [.addDoc (.str "a")]).metadata.length) ∧
      ((∀ op ∈ [StoreOp.addDoc (.str "a")], opClean op) →
        LedgerSeq (runOps encode384 [.addDoc (.str "a")]))) ∧
    LedgerSeq (runOps encode384 [.addDoc (.str "a")]) :=
  ⟨store_ledger_invariant encode384 [.addDoc (.str "a")],
    (store_ledger_invariant encode384 [.addDoc (.str "a")]).2
      (by intro op hop; simp only [List.mem_singleton] at hop; subst hop; trivial)⟩

/-! ## C4: search with non-positive k -/

/-- C4 counterexample: on the empty store, `search` with `k = 0` returns the
empty hit list successfully instead of failing — the empty-store
short-circuit runs before any validation, and no `ValidationError` exists
anywhere in the code. -/
theorem search_k_zero_empty_ok : FAISSStore.search emptyStore [] 0 = .ok [] := rfl

/-- C4 (amended): for every store state and query vector, `search` with
`k <= 0` returns the empty list when the store is empty (no error at all),
and otherwise fails inside the index layer — with the shape assertion of the
library wrapper or its `k > 0` requirement — never with a `ValidationError`,
which does not exist in the code. -/
theorem search_nonpositive_k (s : FAISSStore) (q : Vec) (k : Int) (hk : k ≤ 0) :
    (s.index.length = 0 → s.search q k = .ok []) ∧
    (s.index.length ≠ 0 →
      s.search q k = .error (.assertionError "assert d == self.d") ∨
      s.search q k = .error (.faissError "k must be positive")) := by
  constructor
  · intro h
    unfold FAISSStore.search
    rw [if_pos h]
  · intro h
    unfold FAISSStore.search
    rw [if_neg h]
    unfold faissSearch
    by_cases hq : q.length ≠ s.dim
    · rw [if_pos hq]
      left
      rfl
    · rw [if_neg hq, if_pos hk]
      right
      rfl

/-- C4 witness: the amended statement at a nonempty store and `k = 0`. -/
theorem search_nonpositive_k_witness :
    ((0 : Int) ≤ 0) ∧
    ((demoStore.index.length = 0 → demoStore.search [0] 0 = .ok []) ∧
      (demoStore.index.length ≠ 0 →
        demoStore.search [0] 0 = .error (.assertionError "assert d == self.d") ∨
        demoStore.search [0] 0 = .error (.faissError "k must be positive"))) :=
  ⟨le_refl 0, search_nonpositive_k demoStore [0] 0 (le_refl 0)⟩

/-! ## C5: add_document without extractable text -/

/-- C5 counterexample: a metadata dict without a `text` key fails with
`TypeError` (the debug slice of `None` in the embedder), and one with an
empty `text` fails with the index wrapper's shape assertion (the embedder
returns an empty vector) — neither failure is a `ValidationError`, which does
not exist in the code. -/
theorem add_document_no_text_errors :
    add_document encode384 emptyStore (.dict {}) =
      .error (.typeError "NoneType object is not subscriptable") ∧
    add_document encode384 emptyStore (.dict { text := some "" }) =
      .error (.assertionError "assert d == self.d") :=
  ⟨rfl, rfl⟩

/-- C5 (amended): for every input to `add_document` from which no text can
be extracted (a dict whose text field is absent or empty, an empty plain
string, or a non-str/non-dict value), the call fails — with `TypeError`,
the index shape assertion, or `ValueError` respectively, never a
`ValidationError` — and the store is left unchanged. -/
theorem add_document_no_text_spec (encode : String → Vec) (s : FAISSStore) (input : AddInput)
    (hdim : s.dim ≠ 0) (hin : noExtractableText input) :
    (∃ e, add_document encode s input = .error e) ∧
    applyOp encode s (.addDoc input) = s := by
  have herr : ∃ e, add_document encode s input = .error e := by
    cases input with
    | invalid => exact ⟨.valueError "add_document expects str or dict", rfl⟩
    | str t =>
      have ht : t = "" := hin
      subst ht
      exact ⟨.assertionError "assert d == self.d",
        by simp [add_document, extractInput, getEmbedding, faissAdd, Ne.symm hdim]⟩
    | dict m =>
      rcases hin with hnone | hempty
      · exact ⟨.typeError "NoneType object is not subscriptable",
          by simp [add_document, extractInput, getEmbedding, hnone]⟩
      · exact ⟨.assertionError "assert d == self.d",
          by simp [add_document, extractInput, getEmbedding, faissAdd, hempty, Ne.symm hdim]⟩
  obtain ⟨e, he⟩ := herr
  refine ⟨⟨e, he⟩, ?_⟩
  simp only [applyOp]
  rw [he]

/-- C5 witness: the amended statement at the fresh store and a textless
dict. -/
theorem add_document_no_text_spec_witness :
    (emptyStore.dim ≠ 0 ∧ noExtractableText (.dict {})) ∧
    ((∃ e, add_document encode384 emptyStore (.dict {}) = .error e) ∧
      applyOp encode384 emptyStore (.addDoc (.dict {})) = emptyStore) :=
  ⟨⟨by decide, Or.inl rfl⟩,
    add_document_no_text_spec encode384 emptyStore (.dict {}) (by decide) (Or.inl rfl)⟩

/-! ## C10: search bounds and padding filtering -/

theorem mem_hitsOfLabels {md : List MetaRec} {pairs : List (Int × ℚ)} {h : SearchHit}
    (hmem : h ∈ hitsOfLabels md pairs) : h.meta ∈ md := by
  rcases List.mem_filterMap.mp hmem with ⟨p, _, hf⟩
  by_cases hc : 0 ≤ p.1 ∧ p.1.toNat < md.length
  · rw [dif_pos hc] at hf
    obtain rfl : ({ meta := md.get ⟨p.1.toNat, hc.2⟩, score := p.2 } : SearchHit) = h := by
      simpa using hf
    exact List.get_mem _ _ hc.2
  · rw [dif_neg hc] at hf
    exact absurd hf (by simp)

theorem hitsOfLabels_length_eq (md : List MetaRec) (pairs : List (Int × ℚ)) :
    (hitsOfLabels md pairs).length =
      (pairs.filter (fun p => decide (0 ≤ p.1) && decide (p.1.toNat < md.length))).length := by
  induction pairs with
  | nil => rfl
  | cons p ps ih =>
    unfold hitsOfLabels at ih ⊢
    rw [List.filterMap_cons, List.filter_cons]
    by_cases hc : 0 ≤ p.1 ∧ p.1.toNat < md.length
    · have hb : (decide (0 ≤ p.1) && decide (p.1.toNat < md.length)) = true := by
        simp [hc.1, hc.2]
      rw [dif_pos hc, if_pos hb]
      simpa using ih
    · have hb : ¬ (decide (0 ≤ p.1) && decide (p.1.toNat < md.length)) = true := by
        simpa [Bool.and_eq_true, decide_eq_true_eq] using hc
      rw [dif_neg hc, if_neg hb]
      exact ih

theorem filtered_labels_bound (md : List MetaRec) (pairs : List (Int × ℚ))
    (hnd : (pairs.map Prod.fst).Nodup) :
    (pairs.filter (fun p => decide (0 ≤ p.1) && decide (p.1.toNat < md.length))).length ≤
      md.length := by
  have hsub : List.Sublist
      (pairs.filter (fun p => decide (0 ≤ p.1) && decide (p.1.toNat < md.length))) pairs :=
    List.filter_sublist _
  have hnd' : ((pairs.filter (fun p => decide (0 ≤ p.1) && decide (p.1.toNat < md.length))).map
      Prod.fst).Nodup := hnd.sublist (hsub.map Prod.fst)
  have hcond : ∀ p ∈ pairs.filter (fun p => decide (0 ≤ p.1) && decide (p.1.toNat < md.length)),
      0 ≤ p.1 ∧ p.1.toNat < md.length := by
    intro p hp
    have := List.of_mem_filter hp
    simpa [Bool.and_eq_true, decide_eq_true_eq] using this
  have hndn : ((pairs.filter
      (fun p => decide (0 ≤ p.1) && decide (p.1.toNat < md.length))).map
        (fun p => p.1.toNat)).Nodup := by
    have hmapmap : ((pairs.filter
        (fun p => decide (0 ≤ p.1) && decide (p.1.toNat < md.length))).map
          (fun p => p.1.toNat)) =
        (((pairs.filter (fun p => decide (0 ≤ p.1) && decide (p.1.toNat < md.length))).map
          Prod.fst).map Int.toNat) := by
      rw [List.map_map]
      rfl
    rw [hmapmap]
    refine List.Nodup.map_on ?_ hnd'
    intro x hx y hy hxy
    rcases List.mem_map.mp hx with ⟨px, hpx, rfl⟩
    rcases List.mem_map.mp hy with ⟨py, hpy, rfl⟩
    have hx0 : 0 ≤ px.1 := (hcond px hpx).1
    have hy0 : 0 ≤ py.1 := (hcond py hpy).1
    omega
  have hlt : ∀ x ∈ ((pairs.filter
      (fun p => decide (0 ≤ p.1) && decide (p.1.toNat < md.length))).map
        (fun p => p.1.toNat)), x < md.length := by
    intro x hx
    rcases List.mem_map.mp hx with ⟨p, hp, rfl⟩
    exact (hcond p hp).2
  calc (pairs.filter (fun p => decide (0 ≤ p.1) && decide (p.1.toNat < md.length))).length
      = ((pairs.filter (fun p => decide (0 ≤ p.1) && decide (p.1.toNat < md.length))).map
          (fun p => p.1.toNat)).length := by rw [List.length_map]
    _ = ((pairs.filter (fun p => decide (0 ≤ p.1) && decide (p.1.toNat < md.length))).map
          (fun p => p.1.toNat)).toFinset.card := (List.toFinset_card_of_nodup hndn).symm
    _ ≤ (Finset.range md.length).card := by
        refine Finset.card_le_card ?_
        intro x hx
        exact Finset.mem_range.mpr (hlt x (List.mem_toFinset.mp hx))
    _ = md.length := Finset.card_range _

/-- C10: for every store, dimension-matching query and `k >= 1`, `search`
succeeds (the `-1` padding the index produces when `k` exceeds the number of
stored vectors is silently dropped by the bounds check, so no out-of-bounds
access happens), returns at most `min k (number of ledger records)` hits, and
every returned hit is a copy of a ledger record. -/
theorem search_bounds (s : FAISSStore) (q : Vec) (k : Int)
    (hk : 1 ≤ k) (hq : q.length = s.dim) :
    ∃ hits, s.search q k = .ok hits ∧
      hits.length ≤ min k.toNat s.metadata.length ∧
      ∀ h ∈ hits, h.meta ∈ s.metadata := by
  by_cases hempty : s.index.length = 0
  · refine ⟨[], ?_, by simp, by simp⟩
    unfold FAISSStore.search
    rw [if_pos hempty]
  · have hkpos : ¬ k ≤ 0 := by omega
    unfold FAISSStore.search faissSearch
    rw [if_neg hempty, if_neg (not_not_intro hq), if_neg hkpos]
    refine ⟨_, rfl, ?_, fun h hmem => mem_hitsOfLabels hmem⟩
    have hndL : ((pySortAsc (fun p => p.2)
        (s.index.enum.map (fun p => ((p.1 : Int), sqDist q p.2)))).map Prod.fst).Nodup := by
      have hbase : ((s.index.enum.map (fun p => ((p.1 : Int), sqDist q p.2))).map
          Prod.fst).Nodup := by
        rw [List.map_map]
        have : (Prod.fst ∘ fun p : Nat × Vec => ((p.1 : Int), sqDist q p.2)) =
            (fun n : Nat => (n : Int)) ∘ Prod.fst := rfl
        rw [this, ← List.map_map, List.enum_map_fst]
        exact (List.nodup_range _).map (fun a b h => by exact_mod_cast h)
      exact ((pySortDesc_perm _ _).map Prod.fst).nodup_iff.mpr hbase
    have hndTop : (((pySortAsc (fun p => p.2)
        (s.index.enum.map (fun p => ((p.1 : Int), sqDist q p.2)))).take k.toNat).map
          Prod.fst).Nodup :=
      hndL.sublist ((List.take_sublist _ _).map Prod.fst)
    rw [hitsOfLabels_length_eq, List.filter_append]
    have hpadnil : (List.replicate
        (k.toNat - ((pySortAsc (fun p => p.2)
          (s.index.enum.map (fun p => ((p.1 : Int), sqDist q p.2)))).take k.toNat).length)
          ((-1 : Int), FAISS_PAD_DIST)).filter
        (fun p => decide (0 ≤ p.1) && decide (p.1.toNat < s.metadata.length)) = [] := by
      refine List.filter_eq_nil_iff.mpr ?_
      intro p hp
      have : p = ((-1 : Int), FAISS_PAD_DIST) := (List.eq_of_mem_replicate hp)
      subst this
      simp
    rw [hpadnil, List.append_nil]
    refine le_min ?_ ?_
    · refine le_trans (List.length_filter_le _ _) ?_
      rw [List.length_take]
      exact min_le_left _ _
    · exact filtered_labels_bound s.metadata _ hndTop

/-- C10 witness: the search bound at a concrete store and `k = 2`. -/
theorem search_bounds_witness :
    ((1 : Int) ≤ 2 ∧ ([(0 : ℚ)] : Vec).length = demoStore.dim) ∧
    ∃ hits, demoStore.search [0] 2 = .ok hits ∧
      hits.length ≤ min (2 : Int).toNat demoStore.metadata.length ∧
      ∀ h ∈ hits, h.meta ∈ demoStore.metadata :=
  ⟨⟨by decide, by decide⟩, search_bounds demoStore [0] 2 (by decide) (by decide)⟩

/-! ## C1: denied requests and the audit trail -/

/-- C1 (code evaluated at the failing configuration): when the permission
guard denies — the endpoint body run with the role variable set to `viewer`,
a role without `execute_workflow` — the guard raises its own
`PermissionDenied` class, which is neither the `PermissionDenied` imported
from app/errors.py nor a `DocuFlowError`, so neither except clause of
`route_from_search` matches: zero audit records are written (in particular
none with event kind "denied") and the raw guard exception escapes.  This
holds for every environment, query and `top_k`. -/
theorem route_denied_writes_no_audit (env : RouteEnv) (query : String) (topK : Int) :
    routeFromSearchWith env .viewer query topK =
      ([], .error (.guardPermissionDenied GUARD_DENY_MSG)) := rfl

/-! ## C2: audit records of a successful request -/

theorem handleRouteErr_snd (role : Role) (query : String) (trail : List AuditRec) (e : PyErr) :
    (handleRouteErr role query trail e).2 = .error e := by
  unfold handleRouteErr
  split_ifs <;> rfl

theorem routeFromSearchWith_trail (env : RouteEnv) (role : Role) (query : String)
    (topK : Int) :
    ((routeFromSearchWith env role query topK).1.map (fun r => r.event) =
      [ROUTE_DECISION, WORKFLOW_EXECUTION, ROUTE_EXECUTED]) ∨
    exceptOk (routeFromSearchWith env role query topK).2 = false := by
  unfold routeFromSearchWith
  cases enforce_permission role .executeWorkflow with
  | some e =>
    right
    rw [handleRouteErr_snd]
    rfl
  | none =>
    cases hybrid_search env.encode env.store query topK 3 with
    | error e =>
      right
      rw [handleRouteErr_snd]
      rfl
    | ok sr =>
      by_cases hsr : sr.isEmpty
      · right
        dsimp only
        rw [if_pos hsr, handleRouteErr_snd]
        rfl
      · by_cases hdec :
            (WorkflowRouter.route env.rules (classify_text env.cleanText query).1 query).isEmpty =
              true
        · right
          dsimp only
          rw [if_neg hsr, if_pos hdec, handleRouteErr_snd]
          rfl
        · left
          dsimp only
          rw [if_neg hsr, if_neg hdec]
          rfl

theorem routeFromSearchWith_ok_trail (env : RouteEnv) (role : Role) (query : String)
    (topK : Int) (hok : exceptOk (routeFromSearchWith env role query topK).2 = true) :
    (routeFromSearchWith env role query topK).1.map (fun r => r.event) =
      [ROUTE_DECISION, WORKFLOW_EXECUTION, ROUTE_EXECUTED] := by
  rcases routeFromSearchWith_trail env role query topK with h | h
  · exact h
  · rw [h] at hok
    exact absurd hok (by decide)

/-- C2 counterexample: a concrete governed request that completes fully
successfully writes THREE audit records — the decision-time record, the
executor's own `workflow_execution` record, and the orchestrator's
execution record — not two. -/
theorem route_success_three_audits :
    exceptOk (route_from_search demoEnv "pay" 10).2 = true ∧
    (route_from_search demoEnv "pay" 10).1.map (fun r => r.event) =
      [ROUTE_DECISION, WORKFLOW_EXECUTION, ROUTE_EXECUTED] ∧
    (route_from_search demoEnv "pay" 10).1.length = 3 :=
  ⟨rfl, rfl, rfl⟩

/-- C2 (amended): every governed route-from-search request that completes
successfully (permission granted, non-empty search results, non-empty
decision, execution performed) writes exactly three audit records, in order:
one at decision time, and two at execution time — the executor's
`workflow_execution` record and the orchestrator's execution record. -/
theorem route_success_audit_trail (env : RouteEnv) (query : String) (topK : Int)
    (hok : exceptOk (route_from_search env query topK).2 = true) :
    (route_from_search env query topK).1.map (fun r => r.event) =
      [ROUTE_DECISION, WORKFLOW_EXECUTION, ROUTE_EXECUTED] :=
  routeFromSearchWith_ok_trail env .operator query topK hok

/-- C2 witness: the amended statement at a concrete successful request. -/
theorem route_success_audit_trail_witness :
    exceptOk (route_from_search demoEnv "pay" 10).2 = true ∧
    (route_from_search demoEnv "pay" 10).1.map (fun r => r.event) =
      [ROUTE_DECISION, WORKFLOW_EXECUTION, ROUTE_EXECUTED] :=
  ⟨rfl, route_success_audit_trail demoEnv "pay" 10 rfl⟩

end MLAPI
